import Mathlib

/-!
Verification of the CRON schedule evaluator in `src/app/page.tsx`
(`parseCronPart`, `validateCronExpression`, `calculateNextExecutions`).

Strings are modelled as Lean `String`s; the JavaScript numeric values that
the evaluator produces are modelled as `Option Int`, where `none` stands
for `NaN`.  The model covers the decimal-integer fragment of JavaScript
number parsing (optional sign, decimal digits, surrounding whitespace,
and the empty string that `Number` maps to `0`); fractional, exponent and
hexadecimal literals are outside the model.  Functions whose JavaScript
originals can fail to terminate return `Option` results, `none` marking
divergence.
-/

/-- Numeric value of a list of decimal digit characters (most significant
first), as accumulated by a left-to-right parse. -/
def digitsToNat (cs : List Char) : Nat :=
  cs.foldl (fun acc c => acc * 10 + (c.toNat - '0'.toNat)) 0

/-- Model of `Number.parseInt`: skip leading whitespace, read an optional
sign and then the longest prefix of decimal digits; `none` models `NaN`
(no digits found). -/
def jsParseInt (s : String) : Option Int :=
  let cs := s.data.dropWhile (fun c => c.isWhitespace)
  match cs with
  | '-' :: rest =>
      let ds := rest.takeWhile (fun c => c.isDigit)
      if ds = [] then none else some (-(digitsToNat ds : Int))
  | '+' :: rest =>
      let ds := rest.takeWhile (fun c => c.isDigit)
      if ds = [] then none else some ((digitsToNat ds : Int))
  | other =>
      let ds := other.takeWhile (fun c => c.isDigit)
      if ds = [] then none else some ((digitsToNat ds : Int))

/-- Strip whitespace from both ends of a character list. -/
def trimChars (cs : List Char) : List Char :=
  ((cs.dropWhile (fun c => c.isWhitespace)).reverse.dropWhile
    (fun c => c.isWhitespace)).reverse

/-- Model of the `Number` conversion used by `.map(Number)`: trims the
token, maps the empty token to `0`, accepts an optionally signed run of
decimal digits, and yields `none` (`NaN`) otherwise. -/
def jsNumber (s : String) : Option Int :=
  match trimChars s.data with
  | [] => some 0
  | '-' :: rest =>
      if rest ≠ [] ∧ rest.all (fun c => c.isDigit) then
        some (-(digitsToNat rest : Int))
      else none
  | '+' :: rest =>
      if rest ≠ [] ∧ rest.all (fun c => c.isDigit) then
        some ((digitsToNat rest : Int))
      else none
  | other =>
      if other.all (fun c => c.isDigit) then
        some ((digitsToNat other : Int))
      else none

/-- Split a character list at every occurrence of `sep`, keeping empty
segments, as JavaScript `split` does for a one-character separator.
`acc` holds the current segment in reverse. -/
def splitCharAux (sep : Char) : List Char → List Char → List (List Char)
  | [], acc => [acc.reverse]
  | c :: rest, acc =>
      if c = sep then acc.reverse :: splitCharAux sep rest []
      else splitCharAux sep rest (c :: acc)

/-- `s.split(sep)` for a one-character separator. -/
def splitOnC (s : String) (sep : Char) : List String :=
  (splitCharAux sep s.data []).map (fun cs => (⟨cs⟩ : String))

/-- `s.includes(c)` for a single character. -/
def containsChar (s : String) (c : Char) : Bool :=
  s.data.any (fun x => x = c)

/-- `Array.from({length: hi + 1 - lo}, (_, i) => lo + i)`: the inclusive
run `lo..hi`, empty when `hi < lo`. -/
def rangeList (lo hi : Int) : List Int :=
  (List.range (hi + 1 - lo).toNat).map (fun k : Nat => lo + (k : Int))

/-- The body of `for (let i = min; i <= max; i += stepNum)` for a positive
step: collect `i, i+s, i+2s, …` while the value stays `≤ mx`. -/
def posSteps (i mx s : Int) : List Int :=
  if _h : 0 < s ∧ i ≤ mx then i :: posSteps (i + s) mx s else []
termination_by (mx + 1 - i).toNat
decreasing_by omega

/-- The step loop of `parseCronPart` for an arbitrary parsed step.
A `NaN` step (`none`) runs the body once (`i + NaN` is `NaN`, which ends
the loop); a zero or negative step never terminates when the body runs at
all, modelled by the `none` result. -/
def stepLoop (mn mx : Int) (stepNum : Option Int) : Option (List Int) :=
  match stepNum with
  | none => if mn ≤ mx then some [mn] else some []
  | some s =>
      if 0 < s then some (posSteps mn mx s)
      else if mn ≤ mx then none
      else some []

/-- The comma branch of `parseCronPart`:
`part.split(",").map(Number).filter(n => !isNaN(n) && n >= min && n <= max)`. -/
def commaValues (part : String) (mn mx : Int) : List Int :=
  ((splitOnC part ',').map jsNumber).filterMap (fun n? =>
    match n? with
    | some n => if mn ≤ n ∧ n ≤ mx then some n else none
    | none => none)

/-- The part of `parseCronPart` reached after the wildcard and `*/step`
branches decline: the comma list, the `start-end` range, and the final
single-integer parse. -/
def parseTail (part : String) (mn mx : Int) : List Int :=
  if containsChar part ',' then commaValues part mn mx
  else
    match (if containsChar part '-' then
             (match jsNumber ((splitOnC part '-').headD ""),
                    jsNumber (((splitOnC part '-')[1]?).getD "") with
              | some a, some b => some (rangeList a b)
              | _, _ => none)
           else none) with
    | some l => l
    | none =>
        match jsParseInt part with
        | some n => if mn ≤ n ∧ n ≤ mx then [n] else []
        | none => []

/-- Shallow embedding of `parseCronPart` (page.tsx lines 92–121).
Resolution order as in the source: exact `*`; `range/step` with `range`
exactly `*` (other slash tokens fall through); comma list; dash range;
single integer.  `none` marks a run of the original that does not
terminate (a `*/step` token whose step parses as zero or negative). -/
def parseCronPart (part : String) (mn mx : Int) : Option (List Int) :=
  if part = "*" then some (rangeList mn mx)
  else
    match (if containsChar part '/' then
             (if (splitOnC part '/').headD "" = "*" then
               some (stepLoop mn mx (jsParseInt (((splitOnC part '/')[1]?).getD "")))
              else none)
           else none) with
    | some r => r
    | none => some (parseTail part mn mx)

/-- A wall-clock instant at minute resolution, as read off a JavaScript
`Date` after `setSeconds(0, 0)`: `month` is `getMonth() + 1` (1–12) and
`day` is `getDate()` (1-based). -/
structure DateTime where
  year : Nat
  month : Nat
  day : Nat
  hour : Nat
  minute : Nat
deriving DecidableEq, Repr

/-- Gregorian leap-year rule. -/
def isLeap (y : Nat) : Bool :=
  y % 4 = 0 && (y % 100 != 0 || y % 400 = 0)

/-- Number of days in a month of the Gregorian calendar. -/
def daysInMonth (y m : Nat) : Nat :=
  if m = 2 then (if isLeap y then 29 else 28)
  else if m = 4 ∨ m = 6 ∨ m = 9 ∨ m = 11 then 30
  else 31

/-- Month offsets of Sakamoto's day-of-week formula. -/
def monthTable : List Nat := [0, 3, 2, 5, 0, 3, 5, 1, 4, 6, 2, 4]

/-- Day of week of a Gregorian date, `0` = Sunday, matching `getDay()`
(Sakamoto's formula; the `-y/100` term is replaced by `+6*(y/100)`, equal
modulo 7). -/
def dayOfWeek (y m d : Nat) : Nat :=
  let yy := if m < 3 then y - 1 else y
  (yy + yy / 4 + yy / 400 + 6 * (yy / 100) + monthTable.getD (m - 1) 0 + d) % 7

/-- Linearisation of an instant; strictly monotone in chronological order
on valid instants, used to model `Date` comparison. -/
def DateTime.key (t : DateTime) : Nat :=
  (((t.year * 13 + t.month) * 32 + t.day) * 24 + t.hour) * 60 + t.minute

/-- The instant denotes an actual calendar date and time of day. -/
def DateTime.Valid (t : DateTime) : Prop :=
  1 ≤ t.month ∧ t.month ≤ 12 ∧ 1 ≤ t.day ∧ t.day ≤ daysInMonth t.year t.month ∧
    t.hour ≤ 23 ∧ t.minute ≤ 59

instance (t : DateTime) : Decidable t.Valid := by
  unfold DateTime.Valid; exact inferInstance

/-- `searchDate.setMinutes(searchDate.getMinutes() + 1)`: advance a valid
instant by one minute, rolling over hour, day, month and year. -/
def nextMinute (t : DateTime) : DateTime :=
  if t.minute + 1 ≤ 59 then { t with minute := t.minute + 1 }
  else if t.hour + 1 ≤ 23 then { t with hour := t.hour + 1, minute := 0 }
  else if t.day + 1 ≤ daysInMonth t.year t.month then
    { t with day := t.day + 1, hour := 0, minute := 0 }
  else if t.month + 1 ≤ 12 then
    { t with month := t.month + 1, day := 1, hour := 0, minute := 0 }
  else
    { year := t.year + 1, month := 1, day := 1, hour := 0, minute := 0 }

/-- The day-matching rule of `calculateNextExecutions` (page.tsx lines
144–152): `null` (here `none`) marks a `*` day field. -/
def dayMatch (days weekdays : Option (List Int)) (day weekday : Int) : Bool :=
  match days, weekdays with
  | some ds, some ws => decide (day ∈ ds) || decide (weekday ∈ ws)
  | some ds, none => decide (day ∈ ds)
  | none, some ws => decide (weekday ∈ ws)
  | none, none => true

/-- `minuteMatch && hourMatch && dayMatch && monthMatch` for the cursor
instant. -/
def cronMatch (minutes hours months : List Int) (days weekdays : Option (List Int))
    (cur : DateTime) : Bool :=
  decide ((cur.minute : Int) ∈ minutes) && decide ((cur.hour : Int) ∈ hours) &&
    dayMatch days weekdays (cur.day : Int) ((dayOfWeek cur.year cur.month cur.day : Nat) : Int) &&
    decide ((cur.month : Int) ∈ months)

/-- The minute-stepping loop of `calculateNextExecutions` (lines 133–169):
`fuel` counts the remaining iterations of `attempts < 10000`, `acc` the
executions collected so far (as instants rather than formatted strings);
a cursor is recorded only when it matches and lies strictly after `now`. -/
def searchLoop (minutes hours months : List Int) (days weekdays : Option (List Int))
    (now : DateTime) : Nat → DateTime → List DateTime → List DateTime
  | 0, _, acc => acc
  | fuel + 1, cur, acc =>
      if acc.length < 5 then
        searchLoop minutes hours months days weekdays now fuel (nextMinute cur)
          (if cronMatch minutes hours months days weekdays cur && decide (now.key < cur.key)
           then acc ++ [cur] else acc)
      else acc

/-- `expression.trim().split(/\s+/)`: the whitespace-separated tokens; a
blank string yields the single empty token, as in JavaScript. `acc` holds
the current token in reverse. -/
def wordsAux : List Char → List Char → List (List Char)
  | [], acc => if acc = [] then [] else [acc.reverse]
  | c :: rest, acc =>
      if c.isWhitespace then
        (if acc = [] then wordsAux rest [] else acc.reverse :: wordsAux rest [])
      else wordsAux rest (c :: acc)

/-- See `wordsAux`. -/
def splitWS (s : String) : List String :=
  match wordsAux s.data [] with
  | [] => [""]
  | ws => ws.map (fun cs => (⟨cs⟩ : String))

/-- Shallow embedding of `calculateNextExecutions` (page.tsx lines
82–176), with the reference instant `now` passed explicitly and results
returned as instants.  `none` marks a run of the original that does not
terminate (a field whose parse diverges). -/
def calculateNextExecutions (expr : String) (now : DateTime) : Option (List DateTime) :=
  match splitWS expr with
  | [minutePart, hourPart, dayPart, monthPart, weekdayPart] =>
      match parseCronPart minutePart 0 59, parseCronPart hourPart 0 23,
            (if dayPart = "*" then some none else (parseCronPart dayPart 1 31).map some),
            parseCronPart monthPart 1 12,
            (if weekdayPart = "*" then some none
             else (parseCronPart weekdayPart 0 6).map some) with
      | some minutes, some hours, some days, some months, some weekdays =>
          some (searchLoop minutes hours months days weekdays now 10000 now [])
      | _, _, _, _, _ => none
  | _ => some []

/-- Outcome of the real-time validator: `cleared` models the early return
that resets the validation state for blank input. -/
inductive ValidationOutcome where
  | cleared : ValidationOutcome
  | result : Bool → String → ValidationOutcome
deriving DecidableEq, Repr

/-- One entry of the `validations` array of `validateCronExpression`
(page.tsx lines 196–202). -/
structure FieldCheck where
  tok : String
  lo : Int
  hi : Int
  name : String
deriving DecidableEq, Repr

/-- The `validations` array for the five tokens. -/
def fieldChecks (m h d mo w : String) : List FieldCheck :=
  [⟨m, 0, 59, "minute"⟩, ⟨h, 0, 23, "hour"⟩, ⟨d, 1, 31, "day"⟩,
   ⟨mo, 1, 12, "month"⟩, ⟨w, 0, 6, "weekday"⟩]

/-- A token in simple form: not `*` and containing none of `/`, `,`, `-`. -/
def isSimpleForm (v : String) : Bool :=
  v ≠ "*" && !(containsChar v '/') && !(containsChar v ',') && !(containsChar v '-')

/-- The per-field test of the validator loop: a simple-form token must
`parseInt` to a value inside the field's range; all other tokens pass. -/
def simpleFieldOk (c : FieldCheck) : Bool :=
  if isSimpleForm c.tok then
    match jsParseInt c.tok with
    | none => false
    | some n => decide (c.lo ≤ n) && decide (n ≤ c.hi)
  else true

/-- The validator loop (page.tsx lines 204–218): report the first
simple-form field outside its range, else fall through to the valid
verdict. -/
def runChecks : List FieldCheck → ValidationOutcome
  | [] => .result true "Valid CRON expression"
  | c :: rest =>
      if simpleFieldOk c then runChecks rest
      else .result false ("Invalid " ++ c.name ++ ": " ++ c.tok)

/-- Shallow embedding of `validateCronExpression` (page.tsx lines
179–227), returning the validation state it sets. -/
def validateCronExpression (expression : String) : ValidationOutcome :=
  if (⟨trimChars expression.data⟩ : String) = "" then .cleared
  else
    match splitWS expression with
    | [m, h, d, mo, w] => runChecks (fieldChecks m h d mo w)
    | _ => .result false "CRON expression must have exactly 5 parts"

/-! ### Lemmas about the field parser -/

lemma rangeList_mem (lo hi x : Int) : x ∈ rangeList lo hi ↔ lo ≤ x ∧ x ≤ hi := by
  unfold rangeList
  simp only [List.mem_map, List.mem_range]
  constructor
  · rintro ⟨k, hk, rfl⟩; omega
  · rintro ⟨hx1, hx2⟩
    exact ⟨(x - lo).toNat, by omega, by omega⟩

lemma posSteps_mem_aux (s : Int) (hs : 0 < s) :
    ∀ (n : Nat) (i mx x : Int), (mx + 1 - i).toNat ≤ n →
      (x ∈ posSteps i mx s ↔ ∃ k : Nat, x = i + s * k ∧ x ≤ mx) := by
  intro n
  induction n with
  | zero =>
      intro i mx x hn
      rw [posSteps, dif_neg (by omega : ¬(0 < s ∧ i ≤ mx))]
      simp only [List.not_mem_nil, false_iff]
      rintro ⟨k, rfl, hle⟩
      have hk : (0 : Int) ≤ s * k := mul_nonneg (le_of_lt hs) (by positivity)
      omega
  | succ n ih =>
      intro i mx x hn
      rw [posSteps]
      by_cases h : 0 < s ∧ i ≤ mx
      · rw [dif_pos h]
        simp only [List.mem_cons]
        constructor
        · rintro (rfl | hmem)
          · exact ⟨0, by simp, h.2⟩
          · obtain ⟨k, hk, hle⟩ := (ih (i + s) mx x (by omega)).mp hmem
            exact ⟨k + 1, by push_cast; linear_combination hk, hle⟩
        · rintro ⟨k, hk, hle⟩
          match k with
          | 0 => left; simpa using hk
          | k + 1 =>
              right
              refine (ih (i + s) mx x (by omega)).mpr ⟨k, ?_, hle⟩
              push_cast at hk; linear_combination hk
      · rw [dif_neg h]
        simp only [List.not_mem_nil, false_iff]
        rintro ⟨k, rfl, hle⟩
        have hk : (0 : Int) ≤ s * k := mul_nonneg (le_of_lt hs) (by positivity)
        omega

lemma posSteps_mem_iff (i mx s x : Int) (hs : 0 < s) :
    x ∈ posSteps i mx s ↔ ∃ k : Nat, x = i + s * k ∧ x ≤ mx :=
  posSteps_mem_aux s hs (mx + 1 - i).toNat i mx x le_rfl

lemma parseCronPart_slash (part : String) (mn mx : Int)
    (h1 : part ≠ "*") (h2 : containsChar part '/' = true)
    (h3 : (splitOnC part '/').headD "" = "*") :
    parseCronPart part mn mx =
      stepLoop mn mx (jsParseInt (((splitOnC part '/')[1]?).getD "")) := by
  unfold parseCronPart
  rw [if_neg h1, if_pos h2, if_pos h3]

lemma parseCronPart_no_step (part : String) (mn mx : Int)
    (h1 : part ≠ "*")
    (h2 : ¬(containsChar part '/' = true ∧ (splitOnC part '/').headD "" = "*")) :
    parseCronPart part mn mx = some (parseTail part mn mx) := by
  unfold parseCronPart
  rw [if_neg h1]
  by_cases hc : containsChar part '/'
  · rw [if_pos hc, if_neg (fun he => h2 ⟨hc, he⟩)]
  · rw [if_neg hc]

lemma commaValues_mem (part : String) (mn mx : Int) :
    ∀ x : Int, x ∈ commaValues part mn mx ↔
      ∃ t ∈ splitOnC part ',', jsNumber t = some x ∧ mn ≤ x ∧ x ≤ mx := by
  intro x
  unfold commaValues
  rw [List.mem_filterMap]
  constructor
  · rintro ⟨n?, hmem, hf⟩
    rw [List.mem_map] at hmem
    obtain ⟨t, ht, rfl⟩ := hmem
    refine ⟨t, ht, ?_⟩
    match hjn : jsNumber t with
    | none => rw [hjn] at hf; exact absurd hf (by simp)
    | some n =>
        rw [hjn] at hf
        simp only at hf
        by_cases hr : mn ≤ n ∧ n ≤ mx
        · rw [if_pos hr] at hf
          obtain rfl := Option.some.inj hf
          exact ⟨rfl, hr⟩
        · rw [if_neg hr] at hf
          exact absurd hf (by simp)
  · rintro ⟨t, ht, hjn, hr⟩
    refine ⟨jsNumber t, List.mem_map_of_mem jsNumber ht, ?_⟩
    rw [hjn]
    simp only
    rw [if_pos hr]

/-! ### Claims about the field parser -/

/-- Claim C7: for every field domain, `parseCronPart` applied to the
token that is exactly `*` returns exactly the full set of domain
values. -/
theorem c7_wildcard_full_domain (mn mx : Int) :
    ∃ l, parseCronPart "*" mn mx = some l ∧ ∀ x : Int, x ∈ l ↔ mn ≤ x ∧ x ≤ mx :=
  ⟨rangeList mn mx, rfl, fun x => rangeList_mem mn mx x⟩

/-- Claim C8: for a token of the form `start-end` (containing `-` but no
applicable `*`, `/`, or `,`), if both components parse as numbers the
result is the inclusive run `start..end`, with no range check against
the domain. -/
theorem c8_dash_range (part : String) (mn mx a b : Int)
    (h1 : part ≠ "*")
    (h2 : ¬(containsChar part '/' = true ∧ (splitOnC part '/').headD "" = "*"))
    (h3 : containsChar part ',' = false)
    (h4 : containsChar part '-' = true)
    (h5 : jsNumber ((splitOnC part '-').headD "") = some a)
    (h6 : jsNumber (((splitOnC part '-')[1]?).getD "") = some b) :
    parseCronPart part mn mx = some (rangeList a b) ∧
      ∀ x : Int, x ∈ rangeList a b ↔ a ≤ x ∧ x ≤ b := by
  refine ⟨?_, fun x => rangeList_mem a b x⟩
  rw [parseCronPart_no_step part mn mx h1 h2]
  unfold parseTail
  rw [if_neg (by simp [h3]), if_pos h4, h5, h6]

theorem c8_dash_range_witness :
    ("10-12" : String) ≠ "*" ∧
    containsChar "10-12" ',' = false ∧ containsChar "10-12" '-' = true ∧
    jsNumber ((splitOnC "10-12" '-').headD "") = some 10 ∧
    jsNumber (((splitOnC "10-12" '-')[1]?).getD "") = some 12 ∧
    parseCronPart "10-12" 0 23 = some (rangeList 10 12) ∧
    rangeList 10 12 = [10, 11, 12] :=
  ⟨by decide, rfl, rfl, rfl, rfl,
    (c8_dash_range "10-12" 0 23 10 12 (by decide) (by decide) rfl rfl rfl rfl).1, rfl⟩

/-- Claim C6: for a token containing `,` (with no `*` wildcard or
applicable `*/step`), `parseCronPart` keeps exactly the comma members
that parse as a number inside the domain; malformed or out-of-range
members are dropped without failing the whole field. -/
theorem c6_comma_list (part : String) (mn mx : Int)
    (h1 : part ≠ "*")
    (h2 : ¬(containsChar part '/' = true ∧ (splitOnC part '/').headD "" = "*"))
    (h3 : containsChar part ',' = true) :
    ∃ l, parseCronPart part mn mx = some l ∧
      ∀ x : Int, x ∈ l ↔
        ∃ t ∈ splitOnC part ',', jsNumber t = some x ∧ mn ≤ x ∧ x ≤ mx := by
  refine ⟨commaValues part mn mx, ?_, commaValues_mem part mn mx⟩
  rw [parseCronPart_no_step part mn mx h1 h2]
  unfold parseTail
  rw [if_pos h3]

theorem c6_comma_list_witness :
    ("1,5,61" : String) ≠ "*" ∧ containsChar "1,5,61" ',' = true ∧
    (∃ l, parseCronPart "1,5,61" 0 59 = some l ∧
      ∀ x : Int, x ∈ l ↔ ∃ t ∈ splitOnC "1,5,61" ',',
        jsNumber t = some x ∧ 0 ≤ x ∧ x ≤ 59) ∧
    parseCronPart "1,5,61" 0 59 = some [1, 5] :=
  ⟨by decide, rfl, c6_comma_list "1,5,61" 0 59 (by decide) (by decide) rfl, rfl⟩

/-- Claim C4 (amended): for a `range/step` token whose range is exactly
`*`, a step that `parseInt`s to a positive integer yields every step-th
value from the domain minimum while `≤` the maximum; a step that fails
to parse (`NaN`) yields the singleton containing the domain minimum; a
step that parses as zero or negative makes the parser run forever
(`none`), so no value set is produced at all. -/
theorem c4_step_field_amended (part : String) (mn mx : Int)
    (h1 : part ≠ "*")
    (h2 : containsChar part '/' = true)
    (h3 : (splitOnC part '/').headD "" = "*") :
    (∀ s : Int, jsParseInt (((splitOnC part '/')[1]?).getD "") = some s → 0 < s →
      ∃ l, parseCronPart part mn mx = some l ∧
        ∀ x : Int, x ∈ l ↔ ∃ k : Nat, x = mn + s * k ∧ x ≤ mx) ∧
    (jsParseInt (((splitOnC part '/')[1]?).getD "") = none → mn ≤ mx →
      parseCronPart part mn mx = some [mn]) ∧
    (∀ s : Int, jsParseInt (((splitOnC part '/')[1]?).getD "") = some s → s ≤ 0 →
      mn ≤ mx → parseCronPart part mn mx = none) := by
  refine ⟨fun s hs hpos => ?_, fun hnan hle => ?_, fun s hs hnonpos hle => ?_⟩
  · refine ⟨posSteps mn mx s, ?_, fun x => posSteps_mem_iff mn mx s x hpos⟩
    rw [parseCronPart_slash part mn mx h1 h2 h3, hs]
    simp only [stepLoop]
    rw [if_pos hpos]
  · rw [parseCronPart_slash part mn mx h1 h2 h3, hnan]
    simp only [stepLoop]
    rw [if_pos hle]
  · rw [parseCronPart_slash part mn mx h1 h2 h3, hs]
    simp only [stepLoop]
    rw [if_neg (by omega), if_pos hle]

/-- Claim C4 counterexample: a step that does not parse as a positive
integer does not give the empty value set the claim requires; `*/x` over
the minute domain yields the singleton containing the domain minimum. -/
theorem c4_counterexample :
    parseCronPart "*/x" 0 59 = some [0] ∧ parseCronPart "*/x" 0 59 ≠ some [] :=
  ⟨rfl, by decide⟩

lemma posSteps_eval_15 : posSteps 0 59 15 = [0, 15, 30, 45] := by
  rw [posSteps, dif_pos (by norm_num), posSteps, dif_pos (by norm_num),
    posSteps, dif_pos (by norm_num), posSteps, dif_pos (by norm_num),
    posSteps, dif_neg (by norm_num)]
  norm_num

theorem c4_step_field_amended_witness :
    ("*/15" : String) ≠ "*" ∧ containsChar "*/15" '/' = true ∧
    (splitOnC "*/15" '/').headD "" = "*" ∧
    jsParseInt (((splitOnC "*/15" '/')[1]?).getD "") = some 15 ∧ (0 : Int) < 15 ∧
    (∃ l, parseCronPart "*/15" 0 59 = some l ∧
      ∀ x : Int, x ∈ l ↔ ∃ k : Nat, x = 0 + 15 * k ∧ x ≤ 59) ∧
    parseCronPart "*/15" 0 59 = some [0, 15, 30, 45] :=
  ⟨by decide, rfl, rfl, rfl, by decide,
    (c4_step_field_amended "*/15" 0 59 (by decide) rfl rfl).1 15 rfl (by decide),
    by
      rw [parseCronPart_slash "*/15" 0 59 (by decide) rfl rfl,
        show jsParseInt (((splitOnC "*/15" '/')[1]?).getD "") = some 15 from rfl]
      simp only [stepLoop]
      rw [if_pos (by norm_num : (0 : Int) < 15), posSteps_eval_15]⟩

/-- Claim C9 (amended): a `range/step` token whose range is not `*` is
not handled by the step rule; it falls through to the comma, dash and
single-integer rules, which can produce a non-empty value set. -/
theorem c9_non_wildcard_step_amended (part : String) (mn mx : Int)
    (h1 : part ≠ "*")
    (_h2 : containsChar part '/' = true)
    (h3 : (splitOnC part '/').headD "" ≠ "*") :
    parseCronPart part mn mx = some (parseTail part mn mx) :=
  parseCronPart_no_step part mn mx h1 (fun hc => h3 hc.2)

/-- Claim C9 counterexample: `1-30/2` over the minute domain produces
the non-empty set `[1]` (the dash parse fails on `30/2`, and the final
`parseInt` reads the leading `1`), not an empty or invalid set. -/
theorem c9_counterexample :
    parseCronPart "1-30/2" 0 59 = some [1] ∧ parseCronPart "1-30/2" 0 59 ≠ some [] :=
  ⟨rfl, by decide⟩

/-! ### Lemmas about the calendar model and the occurrence search -/

lemma daysInMonth_pos (y m : Nat) : 1 ≤ daysInMonth y m := by
  unfold daysInMonth
  split
  · split <;> omega
  · split <;> omega

lemma daysInMonth_le (y m : Nat) : daysInMonth y m ≤ 31 := by
  unfold daysInMonth
  split
  · split <;> omega
  · split <;> omega

lemma nextMinute_valid {t : DateTime} (h : t.Valid) : (nextMinute t).Valid := by
  obtain ⟨h1, h2, h3, h4, h5, h6⟩ := h
  have hp1 := daysInMonth_pos t.year (t.month + 1)
  have hp2 := daysInMonth_pos (t.year + 1) 1
  unfold nextMinute
  repeat' split
  all_goals refine ⟨?_, ?_, ?_, ?_, ?_, ?_⟩ <;> dsimp only <;> omega

lemma nextMinute_key_lt {t : DateTime} (h : t.Valid) : t.key < (nextMinute t).key := by
  obtain ⟨h1, h2, h3, h4, h5, h6⟩ := h
  have hdm := daysInMonth_le t.year t.month
  unfold nextMinute DateTime.key
  repeat' split
  all_goals dsimp only
  all_goals omega

lemma searchLoop_inv (minutes hours months : List Int) (days weekdays : Option (List Int))
    (now : DateTime) :
    ∀ (fuel : Nat) (cur : DateTime) (acc : List DateTime),
      cur.Valid → acc.length ≤ 5 →
      List.Pairwise (fun a b => a.key < b.key) acc →
      (∀ x ∈ acc, now.key < x.key ∧ x.key < cur.key) →
      ((searchLoop minutes hours months days weekdays now fuel cur acc).length ≤ 5 ∧
       List.Pairwise (fun a b => a.key < b.key)
         (searchLoop minutes hours months days weekdays now fuel cur acc) ∧
       ∀ x ∈ searchLoop minutes hours months days weekdays now fuel cur acc,
         now.key < x.key) := by
  intro fuel
  induction fuel with
  | zero =>
      intro cur acc _ hl hp hx
      exact ⟨hl, hp, fun x hx' => (hx x hx').1⟩
  | succ n ih =>
      intro cur acc hv hl hp hx
      rw [searchLoop]
      by_cases h5 : acc.length < 5
      · rw [if_pos h5]
        by_cases hg : (cronMatch minutes hours months days weekdays cur &&
            decide (now.key < cur.key)) = true
        · rw [if_pos hg]
          rw [Bool.and_eq_true, decide_eq_true_eq] at hg
          refine ih (nextMinute cur) (acc ++ [cur]) (nextMinute_valid hv)
            (by simp; omega) ?_ ?_
          · refine List.pairwise_append.mpr ⟨hp, by simp, ?_⟩
            intro a ha b hb
            rw [List.mem_singleton] at hb
            subst hb
            exact (hx a ha).2
          · intro x hx'
            rcases List.mem_append.mp hx' with hxa | hxc
            · exact ⟨(hx x hxa).1, lt_trans (hx x hxa).2 (nextMinute_key_lt hv)⟩
            · rw [List.mem_singleton] at hxc
              subst hxc
              exact ⟨hg.2, nextMinute_key_lt hv⟩
        · rw [if_neg hg]
          refine ih (nextMinute cur) acc (nextMinute_valid hv) hl hp ?_
          intro x hx'
          exact ⟨(hx x hx').1, lt_trans (hx x hx').2 (nextMinute_key_lt hv)⟩
      · rw [if_neg h5]
        exact ⟨hl, hp, fun x hx' => (hx x hx').1⟩

theorem c9_non_wildcard_step_amended_witness :
    ("1-30/2" : String) ≠ "*" ∧ containsChar "1-30/2" '/' = true ∧
    (splitOnC "1-30/2" '/').headD "" ≠ "*" ∧
    parseCronPart "1-30/2" 0 59 = some (parseTail "1-30/2" 0 59) ∧
    parseTail "1-30/2" 0 59 = [1] :=
  ⟨by decide, rfl, by decide,
    c9_non_wildcard_step_amended "1-30/2" 0 59 (by decide) rfl (by decide), rfl⟩

/-- Claim C1: in the occurrence search, when both day fields are
constrained (raw token not `*`) the day matches iff the day-of-month is
in `days` OR the day-of-week is in `weekdays`; with exactly one
constrained, membership in that one field decides; with neither, the day
always matches. -/
theorem c1_day_or_rule (dayTok wdTok : String) (ds ws : List Int) (day weekday : Int)
    (_hd : parseCronPart dayTok 1 31 = some ds)
    (_hw : parseCronPart wdTok 0 6 = some ws) :
    dayMatch (if dayTok = "*" then none else some ds)
        (if wdTok = "*" then none else some ws) day weekday = true ↔
      (if dayTok ≠ "*" ∧ wdTok ≠ "*" then day ∈ ds ∨ weekday ∈ ws
       else if dayTok ≠ "*" then day ∈ ds
       else if wdTok ≠ "*" then weekday ∈ ws
       else True) := by
  by_cases h1 : dayTok = "*" <;> by_cases h2 : wdTok = "*" <;>
    simp [h1, h2, dayMatch]

theorem c1_day_or_rule_witness :
    parseCronPart "1" 1 31 = some [1] ∧ parseCronPart "1" 0 6 = some [1] ∧
    (dayMatch (if ("1" : String) = "*" then none else some [(1 : Int)])
        (if ("1" : String) = "*" then none else some [(1 : Int)]) 5 1 = true ↔
      (if ("1" : String) ≠ "*" ∧ ("1" : String) ≠ "*" then
        (5 : Int) ∈ [(1 : Int)] ∨ (1 : Int) ∈ [(1 : Int)]
       else if ("1" : String) ≠ "*" then (5 : Int) ∈ [(1 : Int)]
       else if ("1" : String) ≠ "*" then (1 : Int) ∈ [(1 : Int)]
       else True)) :=
  ⟨rfl, rfl, c1_day_or_rule "1" "1" [1] [1] 5 1 rfl rfl⟩

/-- Claim C2: every list the occurrence search returns has at most 5
entries, all strictly later than the reference instant, in strictly
ascending order. -/
theorem c2_occurrence_list_invariant (expr : String) (now : DateTime) (l : List DateTime)
    (hval : now.Valid) (h : calculateNextExecutions expr now = some l) :
    l.length ≤ 5 ∧ (∀ x ∈ l, now.key < x.key) ∧
      List.Pairwise (fun a b => a.key < b.key) l := by
  unfold calculateNextExecutions at h
  split at h
  · split at h
    · obtain rfl := Option.some.inj h
      obtain ⟨ha, hb, hc⟩ :=
        searchLoop_inv _ _ _ _ _ now 10000 now [] hval (by simp) (by simp) (by simp)
      exact ⟨ha, hc, hb⟩
    · exact absurd h (by simp)
  · obtain rfl := Option.some.inj h
    simp

theorem c2_occurrence_list_invariant_witness :
    DateTime.Valid ⟨2024, 1, 1, 0, 0⟩ ∧
    calculateNextExecutions "*" ⟨2024, 1, 1, 0, 0⟩ = some [] ∧
    (([] : List DateTime).length ≤ 5 ∧
     (∀ x ∈ ([] : List DateTime), (⟨2024, 1, 1, 0, 0⟩ : DateTime).key < x.key) ∧
     List.Pairwise (fun a b => a.key < b.key) ([] : List DateTime)) :=
  ⟨by decide, rfl,
    c2_occurrence_list_invariant "*" ⟨2024, 1, 1, 0, 0⟩ [] (by decide) rfl⟩

/-- Claim C3: the claim that the 10,000-iteration ceiling guarantees
termination for every input expression fails: a `*/step` field whose
step parses as zero makes the field parser's own loop run forever before
the bounded minute-stepping loop is ever reached; the model returns
`none` exactly where the original runs forever. -/
theorem c3_step_zero_divergence :
    parseCronPart "*/0" 0 59 = none ∧
    calculateNextExecutions "*/0 * * * *" ⟨2024, 1, 1, 9, 30⟩ = none :=
  ⟨rfl, rfl⟩

/-! ### Lemmas about the validator -/

lemma invalidMsg_ne_parts_msg (a b : String) :
    ("Invalid " ++ a ++ ": " ++ b) ≠ "CRON expression must have exactly 5 parts" := by
  intro h
  have h2 := congrArg String.data h
  rw [String.data_append, String.data_append, String.data_append] at h2
  have h3 := congrArg List.head? h2
  rw [show ((("Invalid ".data ++ a.data) ++ ": ".data) ++ b.data).head? = some 'I'
    from rfl] at h3
  exact absurd h3 (by decide)

lemma runChecks_ne_parts_msg (l : List FieldCheck) :
    runChecks l ≠ .result false "CRON expression must have exactly 5 parts" := by
  induction l with
  | nil => simp [runChecks]
  | cons c rest ih =>
      unfold runChecks
      by_cases hc : simpleFieldOk c
      · rw [if_pos hc]; exact ih
      · rw [if_neg hc]
        intro h
        exact invalidMsg_ne_parts_msg c.name c.tok (ValidationOutcome.result.inj h).2

lemma runChecks_valid_iff (l : List FieldCheck) :
    runChecks l = .result true "Valid CRON expression" ↔
      ∀ c ∈ l, simpleFieldOk c = true := by
  induction l with
  | nil => simp [runChecks]
  | cons c rest ih =>
      unfold runChecks
      by_cases hc : simpleFieldOk c
      · rw [if_pos hc]
        simp [hc, ih]
      · rw [if_neg hc]
        simp [List.forall_mem_cons, hc]

lemma runChecks_first_fail (pre : List FieldCheck) (c : FieldCheck)
    (post : List FieldCheck)
    (hpre : ∀ c' ∈ pre, simpleFieldOk c' = true) (hc : simpleFieldOk c = false) :
    runChecks (pre ++ c :: post) =
      .result false ("Invalid " ++ c.name ++ ": " ++ c.tok) := by
  induction pre with
  | nil =>
      simp only [List.nil_append]
      unfold runChecks
      rw [if_neg (by simp [hc])]
  | cons p rest ih =>
      simp only [List.cons_append]
      unfold runChecks
      rw [if_pos (hpre p (by simp))]
      exact ih (fun c' hc' => hpre c' (by simp [hc']))

lemma length_eq_five_shape {α : Type} (l : List α) (h : l.length = 5) :
    ∃ a b c d e, l = [a, b, c, d, e] := by
  rcases l with _ | ⟨a, _ | ⟨b, _ | ⟨c, _ | ⟨d, _ | ⟨e, _ | ⟨f, r⟩⟩⟩⟩⟩⟩ <;> simp_all

lemma validate_five (expr m h d mo w : String)
    (hne : (⟨trimChars expr.data⟩ : String) ≠ "")
    (hsp : splitWS expr = [m, h, d, mo, w]) :
    validateCronExpression expr = runChecks (fieldChecks m h d mo w) := by
  unfold validateCronExpression
  rw [if_neg hne, hsp]

/-- Claim C5 (amended): with a blank raw expression the validator clears
the validation state instead of reporting a verdict; for a non-blank
expression, the five-parts failure message appears iff the expression
does not split into exactly five tokens; for a five-token expression the
valid verdict appears iff every simple-form token parses inside its
domain, and the first failing field yields the invalid verdict naming
that field and token. -/
theorem c5_validator_amended (expr : String) :
    ((⟨trimChars expr.data⟩ : String) = "" →
      validateCronExpression expr = .cleared) ∧
    ((⟨trimChars expr.data⟩ : String) ≠ "" →
      (validateCronExpression expr =
          .result false "CRON expression must have exactly 5 parts" ↔
        (splitWS expr).length ≠ 5)) ∧
    (∀ m h d mo w, (⟨trimChars expr.data⟩ : String) ≠ "" →
      splitWS expr = [m, h, d, mo, w] →
      ((validateCronExpression expr = .result true "Valid CRON expression") ↔
        ∀ c ∈ fieldChecks m h d mo w, simpleFieldOk c = true) ∧
      (∀ pre c post, fieldChecks m h d mo w = pre ++ c :: post →
        (∀ c' ∈ pre, simpleFieldOk c' = true) → simpleFieldOk c = false →
        validateCronExpression expr =
          .result false ("Invalid " ++ c.name ++ ": " ++ c.tok))) := by
  refine ⟨fun he => ?_, fun hne => ?_, fun m h d mo w hne hsp => ⟨?_, ?_⟩⟩
  · unfold validateCronExpression
    rw [if_pos he]
  · rcases hsp : splitWS expr with _ | ⟨a, _ | ⟨b, _ | ⟨c, _ | ⟨d, _ | ⟨e, _ | ⟨f, r⟩⟩⟩⟩⟩⟩
    case cons.cons.cons.cons.cons.nil =>
      rw [validate_five expr a b c d e hne hsp]
      constructor
      · intro hr
        exact absurd hr (runChecks_ne_parts_msg _)
      · intro h5
        simp at h5
    all_goals
      unfold validateCronExpression
      rw [if_neg hne, hsp]
      simp
  · rw [validate_five expr m h d mo w hne hsp]
    exact runChecks_valid_iff _
  · intro pre c post hdecomp hpre hc
    rw [validate_five expr m h d mo w hne hsp, hdecomp]
    exact runChecks_first_fail pre c post hpre hc

/-- Claim C5 counterexample: a blank expression does not split into five
tokens, yet the validator clears the validation state rather than
returning the claimed invalid verdict with the five-parts message. -/
theorem c5_counterexample :
    validateCronExpression "" = ValidationOutcome.cleared ∧
    validateCronExpression "" ≠
      ValidationOutcome.result false "CRON expression must have exactly 5 parts" ∧
    (splitWS "").length ≠ 5 :=
  ⟨rfl, by decide, by decide⟩

theorem c5_validator_amended_witness :
    ((⟨trimChars ("70 9 * * *" : String).data⟩ : String) ≠ "") ∧
    splitWS "70 9 * * *" = ["70", "9", "*", "*", "*"] ∧
    fieldChecks "70" "9" "*" "*" "*" =
      [] ++ (⟨"70", 0, 59, "minute"⟩ : FieldCheck) ::
        [⟨"9", 0, 23, "hour"⟩, ⟨"*", 1, 31, "day"⟩, ⟨"*", 1, 12, "month"⟩,
         ⟨"*", 0, 6, "weekday"⟩] ∧
    simpleFieldOk ⟨"70", 0, 59, "minute"⟩ = false ∧
    validateCronExpression "70 9 * * *" =
      ValidationOutcome.result false ("Invalid " ++ "minute" ++ ": " ++ "70") :=
  ⟨by decide, rfl, rfl, rfl,
    ((c5_validator_amended "70 9 * * *").2.2 "70" "9" "*" "*" "*" (by decide) rfl).2
      [] ⟨"70", 0, 59, "minute"⟩ _ rfl (by simp) rfl⟩

/-- Claim C10: both validator and parser accept a simple-form token with
trailing non-numeric characters because they parse with `parseInt`:
`5x 9 * * *` validates as a valid CRON expression, `5x` parses to the
singleton `{5}`, and the expression drives the occurrence search exactly
like `5 9 * * *`. -/
theorem c10_parseint_prefix_leniency :
    validateCronExpression "5x 9 * * *" =
      ValidationOutcome.result true "Valid CRON expression" ∧
    parseCronPart "5x" 0 59 = some [5] ∧
    ∀ now : DateTime, calculateNextExecutions "5x 9 * * *" now =
      calculateNextExecutions "5 9 * * *" now :=
  ⟨rfl, rfl, fun _ => rfl⟩
